import Mathlib

/-
Verification development for the MIPSolver repository (C++).

Conventions of the shallow embedding:
* IEEE-754 `double` values are modelled by exact rationals `ℚ`; bound values,
  which the source explicitly allows to be infinite, are modelled by the
  three-valued type `EDouble` (`negInf`, `val q`, `posInf`).  Arithmetic on
  finite values is exact; the infinite absorption rules of IEEE doubles for
  the operations the source actually performs (adding/subtracting a finite
  tolerance, comparisons, max/min, clamping) are spelled out case by case.
* `std::vector<double>` solution vectors become `List ℚ`; out-of-range reads,
  which the source guards with explicit `idx < size` tests, use `List.getD`.
* The sparse coefficient map `std::unordered_map<int,double>` of a constraint
  becomes an association list with unique keys kept in insertion order; every
  use in the source is order-insensitive (sums, and per-variable updates that
  depend only on that variable's own previous value).
* Loops with a source-fixed iteration count (the 20-pass constraint repair,
  the node limit of branch and bound) are translated as structural recursion
  on that explicit fuel.
* The branch-and-bound driver is a step function on an explicit solver state;
  the state carries the input problem through the whole run (mirroring the
  `const Problem&` argument), and a list of the bound-pruning events that
  occurred, recorded purely observationally (no control flow reads it).
-/

namespace MIPSolver

/-- Feasibility tolerance 1e-9 used by the model checks (core.h) and the
LP infeasibility screen (simplex_solver.h). -/
def tol9 : ℚ := 1 / 1000000000

/-- Integrality / pruning / repair tolerance 1e-6 (branch_bound_solver.h,
simplex_solver.h `satisfyConstraints`). -/
def tol6 : ℚ := 1 / 1000000

/-- An IEEE double that the source allows to be `±∞` (variable bounds,
the incumbent objective): minus infinity, a finite rational, or plus
infinity. -/
inductive EDouble where
  | negInf
  | val (q : ℚ)
  | posInf
deriving DecidableEq, Repr, Inhabited

namespace EDouble

/-- `e + q` for finite `q`; infinities absorb, as for IEEE doubles. -/
def addQ : EDouble → ℚ → EDouble
  | negInf, _ => negInf
  | posInf, _ => posInf
  | val a, q => val (a + q)

/-- `e - q` for finite `q`; infinities absorb. -/
def subQ : EDouble → ℚ → EDouble
  | negInf, _ => negInf
  | posInf, _ => posInf
  | val a, q => val (a - q)

/-- Strict order `a < b` on extended doubles (IEEE comparison semantics;
`∞ < ∞` and `-∞ < -∞` are false). -/
def ltE : EDouble → EDouble → Bool
  | negInf, negInf => false
  | negInf, _ => true
  | _, negInf => false
  | posInf, _ => false
  | val _, posInf => true
  | val a, val b => decide (a < b)

/-- `a > b` on extended doubles. -/
def gtE (a b : EDouble) : Bool := ltE b a

/-- `a ≤ b` on extended doubles. -/
def leE : EDouble → EDouble → Bool
  | negInf, _ => true
  | _, posInf => true
  | posInf, _ => false
  | val _, negInf => false
  | val a, val b => decide (a ≤ b)

/-- `x < e` for finite `x` against an extended double. -/
def qLt (x : ℚ) : EDouble → Bool
  | negInf => false
  | posInf => true
  | val a => decide (x < a)

/-- `x > e`. -/
def qGt (x : ℚ) : EDouble → Bool
  | negInf => true
  | posInf => false
  | val a => decide (a < x)

/-- `x ≤ e`. -/
def qLe (x : ℚ) : EDouble → Bool
  | negInf => false
  | posInf => true
  | val a => decide (x ≤ a)

/-- `x ≥ e`. -/
def qGe (x : ℚ) : EDouble → Bool
  | negInf => true
  | posInf => false
  | val a => decide (a ≤ x)

/-- `e ≤ x`. -/
def leQ : EDouble → ℚ → Bool
  | negInf, _ => true
  | posInf, _ => false
  | val a, x => decide (a ≤ x)

/-- Maximum of two extended doubles. -/
def maxE : EDouble → EDouble → EDouble
  | negInf, b => b
  | a, negInf => a
  | posInf, _ => posInf
  | _, posInf => posInf
  | val a, val b => val (max a b)

/-- Minimum of two extended doubles. -/
def minE : EDouble → EDouble → EDouble
  | posInf, b => b
  | a, posInf => a
  | negInf, _ => negInf
  | _, negInf => negInf
  | val a, val b => val (min a b)

/-- `std::max(lower, std::min(upper, v))` for a finite `v` and extended
bounds, as performed by `fixConstraintViolation`.  For the degenerate empty
boxes `upper = -∞` or `lower = +∞` (which C++ doubles would collapse to an
infinite stored value) the model keeps the finite input value; such problems
are outside the modelled domain and are used by no theorem below. -/
def clamp (lower upper : EDouble) (v : ℚ) : ℚ :=
  let m := match upper with
    | posInf => v
    | negInf => v
    | val u => min u v
  match lower with
  | negInf => m
  | posInf => m
  | val l => max l m

end EDouble

/-- `std::round`: round half away from zero, as C++ `round` does
(`round 2.5 = 3`, `round (-2.5) = -3`). -/
def cround (q : ℚ) : ℤ :=
  if 0 ≤ q then ⌊q + 1/2⌋ else -⌊(1/2) - q⌋

/-- `|x - round x|`, the fractional-part measure used throughout
branch_bound_solver.h. -/
def fracPart (q : ℚ) : ℚ := |q - (cround q : ℚ)|

/-- Variable kinds (core.h `VariableType`). -/
inductive VariableType where
  | CONTINUOUS
  | INTEGER
  | BINARY
deriving DecidableEq, Repr, Inhabited

/-- Constraint senses (core.h `ConstraintType`). -/
inductive ConstraintType where
  | LESS_EQUAL
  | GREATER_EQUAL
  | EQUAL
deriving DecidableEq, Repr, Inhabited

/-- Objective senses (core.h `ObjectiveType`). -/
inductive ObjectiveType where
  | MAXIMIZE
  | MINIMIZE
deriving DecidableEq, Repr, Inhabited

/-- Whether a variable kind is subject to integrality (the repeated
`INTEGER || BINARY` test of branch_bound_solver.h). -/
def vtIsInt : VariableType → Bool
  | .INTEGER => true
  | .BINARY => true
  | .CONTINUOUS => false

/-- core.h `Variable`: name, kind, bounds (default `(-∞, +∞)`), objective
coefficient (default 0). -/
structure Variable where
  name : String := ""
  vtype : VariableType := .CONTINUOUS
  lower_bound : EDouble := .negInf
  upper_bound : EDouble := .posInf
  coefficient : ℚ := 0
deriving DecidableEq, Repr, Inhabited

/-- core.h `Constraint`: name, sense, right-hand side, and a sparse
coefficient map modelled as an association list with unique keys. -/
structure Constraint where
  name : String := ""
  ctype : ConstraintType := .LESS_EQUAL
  rhs : ℚ := 0
  coefficients : List (Nat × ℚ) := []
deriving DecidableEq, Repr, Inhabited

/-- core.h `Constraint::addVariable`: `coefficients_[var_index] = coeff`
(insert or overwrite, keys stay unique). -/
def Constraint.addVariable (c : Constraint) (idx : Nat) (coeff : ℚ) : Constraint :=
  { c with coefficients :=
      if c.coefficients.any (fun pr => pr.1 = idx) then
        c.coefficients.map (fun pr => if pr.1 = idx then (idx, coeff) else pr)
      else
        c.coefficients ++ [(idx, coeff)] }

/-- The left-hand side `Σ coeff * solution[var_idx]` of a constraint,
with the source's `var_idx < solution.size()` guard. -/
def Constraint.lhsValue (c : Constraint) (solution : List ℚ) : ℚ :=
  c.coefficients.foldl
    (fun acc pr => if pr.1 < solution.length then acc + pr.2 * solution.getD pr.1 0 else acc) 0

/-- core.h `Constraint::isSatisfied`: tolerance-1e-9 satisfaction test. -/
def Constraint.isSatisfied (c : Constraint) (solution : List ℚ) : Bool :=
  let lhs := c.lhsValue solution
  match c.ctype with
  | .LESS_EQUAL => decide (lhs ≤ c.rhs + tol9)
  | .GREATER_EQUAL => decide (lhs ≥ c.rhs - tol9)
  | .EQUAL => decide (|lhs - c.rhs| < tol9)

/-- core.h `Problem`: name, objective sense, variables and constraints in
insertion order. -/
structure Problem where
  name : String := "MIP"
  objective_type : ObjectiveType := .MINIMIZE
  vars : List Variable := []
  constraints : List Constraint := []
deriving DecidableEq, Repr, Inhabited

/-- core.h `Problem::getNumVariables`. -/
def Problem.getNumVariables (p : Problem) : Nat := p.vars.length

/-- core.h `Problem::getVariable` (unchecked `variables_[index]` in the
source; total here via a default). -/
def Problem.getVar (p : Problem) (i : Nat) : Variable := p.vars.getD i default

/-- core.h `Problem::addVariable`. -/
def Problem.addVariable (p : Problem) (name : String) (t : VariableType) : Problem :=
  { p with vars := p.vars ++ [{ name := name, vtype := t }] }

/-- core.h `Variable::setBounds` applied through `getVariable(i)`. -/
def Problem.setVariableBounds (p : Problem) (i : Nat) (lower upper : EDouble) : Problem :=
  { p with vars :=
      (p.vars.set i { p.getVar i with lower_bound := lower, upper_bound := upper }) }

/-- core.h `Problem::setObjectiveCoefficient`: the source silently does
nothing when `var_index` is out of range (`if (var_index >= 0 && var_index <
variables_.size())`). -/
def Problem.setObjectiveCoefficient (p : Problem) (var_index : ℤ) (coeff : ℚ) : Problem :=
  if 0 ≤ var_index ∧ var_index < (p.vars.length : ℤ) then
    { p with vars :=
        (p.vars.set var_index.toNat { p.getVar var_index.toNat with coefficient := coeff }) }
  else p

/-- core.h `Problem::isValidSolution`: size check, tolerance-1e-9 bound
checks, and every constraint satisfied. -/
def Problem.isValidSolution (p : Problem) (solution : List ℚ) : Bool :=
  decide (solution.length = p.vars.length) &&
  (List.range p.vars.length).all (fun i =>
    let v := p.getVar i
    let x := solution.getD i 0
    !(EDouble.qLt x (v.lower_bound.subQ tol9)) && !(EDouble.qGt x (v.upper_bound.addQ tol9))) &&
  p.constraints.all (fun c => c.isSatisfied solution)

/-- core.h `Problem::calculateObjectiveValue`:
`Σ_{i < min(#vars, #solution)} coeff_i * solution_i` (raw value, never
flipped for maximization). -/
def Problem.calculateObjectiveValue (p : Problem) (solution : List ℚ) : ℚ :=
  (List.range (min p.vars.length solution.length)).foldl
    (fun acc i => acc + (p.getVar i).coefficient * solution.getD i 0) 0

end MIPSolver

namespace MIPSolver

/-- simplex_solver.h `SimplexResult`.  `objective_value` is only assigned by
the source on the accepted path; the infeasible returns leave it
uninitialized, modelled as 0 (never read by the driver on those paths). -/
structure SimplexResult where
  is_optimal : Bool
  is_unbounded : Bool
  is_infeasible : Bool
  solution : List ℚ
  objective_value : ℚ
  iterations : Nat
deriving DecidableEq, Repr, Inhabited

/-- The bound chosen for a non-fixed variable in the initial assignment of
`solveLPWithBounds`: maximization takes the upper bound for a strictly
positive objective coefficient and otherwise the lower bound; minimization
takes the lower bound for a strictly positive coefficient and otherwise the
upper bound. -/
def chooseBound (ot : ObjectiveType) (coeff : ℚ) (lower upper : EDouble) : EDouble :=
  match ot with
  | .MAXIMIZE => if coeff > 0 then upper else lower
  | .MINIMIZE => if coeff > 0 then lower else upper

/-- The `std::isinf` replacement of `solveLPWithBounds`: `+∞ ↦ 100.0`,
`-∞ ↦ 0.0`, finite values unchanged. -/
def sentinel : EDouble → ℚ
  | .posInf => 100
  | .negInf => 0
  | .val q => q

/-- The initial value `solveLPWithBounds` assigns to one variable: the fixed
value when `|lower - upper| < 1e-9` (both bounds finite), else the
objective-favorable bound with infinite bounds replaced by the sentinel. -/
def initialValue (ot : ObjectiveType) (v : Variable) : ℚ :=
  match v.lower_bound, v.upper_bound with
  | .val a, .val b =>
      if |a - b| < tol9 then a
      else sentinel (chooseBound ot v.coefficient (.val a) (.val b))
  | l, u => sentinel (chooseBound ot v.coefficient l u)

/-- The violation test of `satisfyConstraints` for one constraint at the
current solution: returns `(violated, violation)` per the sense-directed
tolerance-1e-6 comparison of the source. -/
def violationOf (c : Constraint) (lhs : ℚ) : Bool × ℚ :=
  match c.ctype with
  | .LESS_EQUAL => if lhs > c.rhs + tol6 then (true, lhs - c.rhs) else (false, 0)
  | .GREATER_EQUAL => if lhs < c.rhs - tol6 then (true, c.rhs - lhs) else (false, 0)
  | .EQUAL => if |lhs - c.rhs| > tol6 then (true, |lhs - c.rhs|) else (false, 0)

/-- simplex_solver.h `fixConstraintViolation`: distribute the corrective
delta `target_change` over the variables of the constraint that still have
slack in the required direction, proportionally to `|coeff| / Σ|coeff|`,
clamping each adjusted value to its bounds. -/
def fixConstraintViolation (p : Problem) (solution : List ℚ) (c : Constraint)
    (lhs : ℚ) : List ℚ :=
  let target_change : ℚ :=
    match c.ctype with
    | .LESS_EQUAL => if lhs > c.rhs then c.rhs - lhs else 0
    | .GREATER_EQUAL => if lhs < c.rhs then c.rhs - lhs else 0
    | .EQUAL => c.rhs - lhs
  if |target_change| < tol9 then solution
  else
    let adjustable := c.coefficients.filter (fun pr =>
      decide (pr.1 < solution.length) && decide (|pr.2| > tol9) &&
      (let v := p.getVar pr.1
       if target_change * pr.2 > 0 then
         EDouble.qLt (solution.getD pr.1 0) (v.upper_bound.subQ tol9)
       else
         EDouble.qGt (solution.getD pr.1 0) (v.lower_bound.addQ tol9)))
    let total_weight := adjustable.foldl (fun acc pr => acc + |pr.2|) 0
    if adjustable.isEmpty || decide (total_weight < tol9) then solution
    else
      adjustable.foldl (fun s pr =>
        let coeff := pr.2
        let weight := |coeff| / total_weight
        let var_change := target_change * weight / coeff
        let v := p.getVar pr.1
        s.set pr.1 (EDouble.clamp v.lower_bound v.upper_bound (s.getD pr.1 0 + var_change)))
        solution

/-- One outer pass of the repair loop of `satisfyConstraints`: visit every
constraint in order, fixing each one found violated against the current
(already partially adjusted) solution; returns the new solution, whether no
constraint was found violated, and the maximum violation seen. -/
def repairPass (p : Problem) (solution : List ℚ) : List ℚ × Bool × ℚ :=
  p.constraints.foldl
    (fun st c =>
      let lhs := c.lhsValue st.1
      let vv := violationOf c lhs
      if vv.1 then
        (fixConstraintViolation p st.1 c lhs, false, max st.2.2 vv.2)
      else st)
    (solution, true, 0)

/-- How the repair loop of `satisfyConstraints` ended: all constraints
satisfied during a pass, the stagnation abort (`iter > 5` with a violation
above 1.0), or the 20 passes exhausted. -/
inductive RepairOutcome where
  | earlyOk (s : List ℚ)
  | earlyFail (s : List ℚ)
  | exhausted (s : List ℚ)
deriving DecidableEq, Repr

/-- The outer loop of `satisfyConstraints`: at most `fuel` further passes,
`iter` passes already done.  The source runs it as `repairLoop p 20 0 s`. -/
def repairLoop (p : Problem) : Nat → Nat → List ℚ → RepairOutcome
  | 0, _, s => .exhausted s
  | fuel + 1, iter, s =>
    let r := repairPass p s
    if r.2.1 then .earlyOk r.1
    else if iter > 5 ∧ r.2.2 > 1 then .earlyFail r.1
    else repairLoop p fuel (iter + 1) r.1

/-- The post-loop recomputation of the total absolute violation in
`satisfyConstraints` (note the `EQUAL` case adds `|lhs - rhs|` without a
tolerance guard, exactly as the source does). -/
def totalViolation (p : Problem) (solution : List ℚ) : ℚ :=
  p.constraints.foldl
    (fun acc c =>
      let lhs := c.lhsValue solution
      match c.ctype with
      | .LESS_EQUAL => if lhs > c.rhs + tol6 then acc + (lhs - c.rhs) else acc
      | .GREATER_EQUAL => if lhs < c.rhs - tol6 then acc + (c.rhs - lhs) else acc
      | .EQUAL => acc + |lhs - c.rhs|)
    0

/-- simplex_solver.h `satisfyConstraints`: run the repair loop; on
exhaustion accept exactly when the recomputed total violation is strictly
below 0.1.  Returns the acceptance flag and the final solution vector. -/
def satisfyConstraints (p : Problem) (solution : List ℚ) : Bool × List ℚ :=
  match repairLoop p 20 0 solution with
  | .earlyOk s => (true, s)
  | .earlyFail s => (false, s)
  | .exhausted s => (decide (totalViolation p s < 1/10), s)

/-- simplex_solver.h `solveLPWithBounds`: infeasibility screen
(`lower > upper + 1e-9`), initial assignment, constraint repair, and the
objective evaluation on acceptance.  Every return path leaves
`is_unbounded` false, exactly as the source (which initializes it to false
and never assigns it again). -/
def solveLPWithBounds (p : Problem) : SimplexResult :=
  if p.vars.any (fun v => EDouble.gtE v.lower_bound (v.upper_bound.addQ tol9)) then
    { is_optimal := true, is_unbounded := false, is_infeasible := true,
      solution := List.replicate p.vars.length 0, objective_value := 0, iterations := 1 }
  else
    let sol0 := p.vars.map (initialValue p.objective_type)
    let r := satisfyConstraints p sol0
    if r.1 then
      { is_optimal := true, is_unbounded := false, is_infeasible := false,
        solution := r.2, objective_value := p.calculateObjectiveValue r.2, iterations := 1 }
    else
      { is_optimal := true, is_unbounded := false, is_infeasible := true,
        solution := r.2, objective_value := 0, iterations := 1 }

/-- simplex_solver.h `solveLPRelaxation`: delegates to `solveLPWithBounds`. -/
def solveLPRelaxation (p : Problem) : SimplexResult := solveLPWithBounds p

end MIPSolver

namespace MIPSolver

/-- Modelled from the spec: the `Solution` statuses of §3 (solution.h is not
among the sources; the driver in branch_bound_solver.h uses `OPTIMAL`,
`INFEASIBLE`, `UNBOUNDED` and `ITERATION_LIMIT` of this enumeration). -/
inductive SolutionStatus where
  | OPTIMAL
  | INFEASIBLE
  | UNBOUNDED
  | TIME_LIMIT
  | ITERATION_LIMIT
  | UNKNOWN
deriving DecidableEq, Repr, Inhabited

/-- Modelled from the spec: the `Solution` result package of §3 (solution.h
is not among the sources): status, values aligned to variable indices, the
objective value (the driver stores the possibly infinite incumbent
objective), and the processed-node count.  Wall time is not modelled. -/
structure Solution where
  status : SolutionStatus
  values : List ℚ
  objective_value : EDouble
  iterations : Nat
deriving DecidableEq, Repr, Inhabited

/-- branch_bound_solver.h `BBNode`: the subproblem, the parent LP bound
(stored but never read back by the driver), and the depth. -/
structure BBNode where
  problem : Problem
  bound : EDouble
  depth : Nat
deriving DecidableEq, Repr, Inhabited

/-- branch_bound_solver.h `shouldPrune`: minimize prunes when
`node_bound ≥ best - 1e-6`, maximize when `node_bound ≤ best + 1e-6`
(the incumbent may be `±∞` before the first update). -/
def shouldPrune (node_bound : ℚ) (best_objective : EDouble) (ot : ObjectiveType) : Bool :=
  match ot with
  | .MINIMIZE => EDouble.qGe node_bound (best_objective.subQ tol6)
  | .MAXIMIZE => EDouble.qLe node_bound (best_objective.addQ tol6)

/-- branch_bound_solver.h `isBetterSolution`: strict improvement beyond the
1e-6 tolerance. -/
def isBetterSolution (new_obj : ℚ) (current_best : EDouble) (ot : ObjectiveType) : Bool :=
  match ot with
  | .MINIMIZE => EDouble.qLt new_obj (current_best.subQ tol6)
  | .MAXIMIZE => EDouble.qGt new_obj (current_best.addQ tol6)

/-- branch_bound_solver.h `isIntegerFeasible`: every Integer/Binary variable
of the problem is within 1e-6 of its nearest integer. -/
def isIntegerFeasible (solution : List ℚ) (p : Problem) : Bool :=
  (List.range p.vars.length).all (fun i =>
    if vtIsInt (p.getVar i).vtype then
      !(decide (fracPart (solution.getD i 0) > tol6))
    else true)

/-- One step of the scan of `findBranchingVariable`: record variable `i`
when it is integer-kind and its fractional part exceeds both the 1e-6
tolerance and the best fractional part recorded so far (strictly, so the
first index attaining the maximum is kept). -/
def fbvStep (solution : List ℚ) (p : Problem) (acc : Option Nat × ℚ) (i : Nat) :
    Option Nat × ℚ :=
  if vtIsInt (p.getVar i).vtype then
    let f := fracPart (solution.getD i 0)
    if f > tol6 ∧ f > acc.2 then (some i, f) else acc
  else acc

/-- branch_bound_solver.h `findBranchingVariable`: index of the
largest-fractional-part integer variable (ties to the smaller index), or
`none` for the source's `-1`. -/
def findBranchingVariable (solution : List ℚ) (p : Problem) : Option Nat :=
  ((List.range p.vars.length).foldl (fbvStep solution p) (none, 0)).1

/-- branch_bound_solver.h `addBound`: intersect the new bounds with the
variable's current bounds (`new_lower = max`, `new_upper = min`).  The
source's `getVariable` access is unchecked; out-of-range indices (never
produced by the driver) leave the problem unchanged here. -/
def addBound (p : Problem) (var_index : Nat) (lower upper : EDouble) : Problem :=
  if var_index < p.vars.length then
    let v := p.getVar var_index
    { p with vars :=
        (p.vars.set var_index
          { v with lower_bound := EDouble.maxE v.lower_bound lower,
                   upper_bound := EDouble.minE v.upper_bound upper }) }
  else p

/-- The two children created at a branch on variable `j` with LP value `x`
and LP objective `lpObj`: the down child tightens the upper bound to `⌊x⌋`,
the up child tightens the lower bound to `⌈x⌉` (both via `addBound`). -/
def branchChildren (node : BBNode) (j : Nat) (x : ℚ) (lpObj : ℚ) : BBNode × BBNode :=
  ({ problem := addBound node.problem j .negInf (.val (⌊x⌋ : ℤ)),
     bound := .val lpObj, depth := node.depth + 1 },
   { problem := addBound node.problem j (.val (⌈x⌉ : ℤ)) .posInf,
     bound := .val lpObj, depth := node.depth + 1 })

/-- The state of the branch-and-bound main loop: the input problem (the
driver's read-only `const Problem&`), the LIFO node stack (head = top), the
incumbent objective and values, the node counters, the early-return slot of
the unbounded exit, and the observational log of bound-pruning events
`(node, LP objective, incumbent at that moment)`. -/
structure BBState where
  input : Problem
  stack : List BBNode
  best_objective : EDouble
  best_solution : List ℚ
  nodes_processed : Nat
  nodes_pruned : Nat
  earlyReturn : Option Solution
  pruneEvents : List (BBNode × ℚ × EDouble)
deriving Repr

/-- The Solution returned by the source's early `UNBOUNDED` exit: the
freshly constructed `Solution(n)` with only the status set. -/
def unboundedSolution (p : Problem) : Solution :=
  { status := .UNBOUNDED, values := List.replicate p.vars.length 0,
    objective_value := .val 0, iterations := 0 }

/-- One iteration of the main loop of `BranchBoundSolver::solve`: pop a
node, solve its LP relaxation, then in the source's order: infeasibility
prune, unbounded early return (minimize only), bound prune, integrality
test with incumbent update, or branch on the most fractional variable.
Note `isIntegerFeasible`, `findBranchingVariable`, `shouldPrune` and the
unbounded test all use the original input problem, exactly as the source
refers to `problem` rather than `current_node.problem` there. -/
def bbStep (st : BBState) : BBState :=
  match st.stack with
  | [] => st
  | node :: rest =>
    let p := st.input
    let lp := solveLPRelaxation node.problem
    let st0 : BBState := { st with stack := rest, nodes_processed := st.nodes_processed + 1 }
    if lp.is_infeasible then
      { st0 with nodes_pruned := st0.nodes_pruned + 1 }
    else if lp.is_unbounded && (p.objective_type == ObjectiveType.MINIMIZE) then
      { st0 with earlyReturn := some (unboundedSolution p) }
    else if shouldPrune lp.objective_value st.best_objective p.objective_type then
      { st0 with nodes_pruned := st0.nodes_pruned + 1,
                 pruneEvents := st0.pruneEvents ++ [(node, lp.objective_value, st.best_objective)] }
    else if isIntegerFeasible lp.solution p then
      if isBetterSolution lp.objective_value st.best_objective p.objective_type then
        { st0 with best_objective := .val lp.objective_value, best_solution := lp.solution }
      else st0
    else
      match findBranchingVariable lp.solution p with
      | none => st0
      | some j =>
        let x := lp.solution.getD j 0
        let c := branchChildren node j x lp.objective_value
        { st0 with stack := c.1 :: c.2 :: rest }

/-- The main loop `while (!node_stack.empty() && nodes_processed <
iteration_limit_)` with the early unbounded return: `fuel` is
`iteration_limit - nodes_processed`, decremented exactly once per processed
node. -/
def bbLoop : Nat → BBState → BBState
  | 0, st => st
  | fuel + 1, st =>
    if st.stack.isEmpty || st.earlyReturn.isSome then st
    else bbLoop fuel (bbStep st)

/-- The initial state of `BranchBoundSolver::solve`: the incumbent objective
at `+∞` (minimize) or `-∞` (maximize), the incumbent values all zero, and
the root node carrying a copy of the input problem with the opposite
infinity as its stored bound. -/
def initState (p : Problem) : BBState :=
  { input := p,
    stack := [{ problem := p,
                bound := match p.objective_type with
                  | .MINIMIZE => .negInf
                  | .MAXIMIZE => .posInf,
                depth := 0 }],
    best_objective := match p.objective_type with
      | .MINIMIZE => .posInf
      | .MAXIMIZE => .negInf,
    best_solution := List.replicate p.vars.length 0,
    nodes_processed := 0,
    nodes_pruned := 0,
    earlyReturn := none,
    pruneEvents := [] }

/-- Run the branch-and-bound loop to its final state. -/
def bbRun (p : Problem) (iteration_limit : Nat) : BBState :=
  bbLoop iteration_limit (initState p)

/-- The epilogue of `BranchBoundSolver::solve`: copy the incumbent values,
then status `INFEASIBLE` when the incumbent objective is still infinite,
else `ITERATION_LIMIT` when the node budget was exhausted, else
`OPTIMAL`. -/
def finalizeSolution (p : Problem) (iteration_limit : Nat) (st : BBState) : Solution :=
  match st.earlyReturn with
  | some s => s
  | none =>
    let values := (List.range p.vars.length).map (fun i => st.best_solution.getD i 0)
    match st.best_objective with
    | .val q =>
        if st.nodes_processed ≥ iteration_limit then
          { status := .ITERATION_LIMIT, values := values,
            objective_value := .val q, iterations := st.nodes_processed }
        else
          { status := .OPTIMAL, values := values,
            objective_value := .val q, iterations := st.nodes_processed }
    | b =>
        { status := .INFEASIBLE, values := values,
          objective_value := b, iterations := st.nodes_processed }

/-- branch_bound_solver.h `BranchBoundSolver::solve`, with the caller's
iteration limit (`setIterationLimit`) as an explicit argument. -/
def solve (p : Problem) (iteration_limit : Nat) : Solution :=
  finalizeSolution p iteration_limit (bbRun p iteration_limit)

end MIPSolver

namespace MIPSolver

/-- Test problem for C1/C6: minimize `x`, `x` integer in `[0,10]`,
subject to `x ≥ 0.05`. -/
def pC1 : Problem :=
  { name := "pC1", objective_type := .MINIMIZE,
    vars := [{ name := "x", vtype := .INTEGER,
               lower_bound := .val 0, upper_bound := .val 10, coefficient := 1 }],
    constraints := [{ name := "c0", ctype := .GREATER_EQUAL, rhs := 1/20,
                      coefficients := [(0, 1)] }] }

/-- Test problem for C2: minimize `2x + y` with `x, y` integer in `[0,10]`,
`d` integer in `[0,3]` and `s` continuous in `[0,4]` (both with objective
coefficient 0), subject to `x + y ≥ 8` and `2d + s ≤ 8.5`. -/
def pC2 : Problem :=
  { name := "pC2", objective_type := .MINIMIZE,
    vars := [{ name := "x", vtype := .INTEGER,
               lower_bound := .val 0, upper_bound := .val 10, coefficient := 2 },
             { name := "y", vtype := .INTEGER,
               lower_bound := .val 0, upper_bound := .val 10, coefficient := 1 },
             { name := "d", vtype := .INTEGER,
               lower_bound := .val 0, upper_bound := .val 3, coefficient := 0 },
             { name := "s", vtype := .CONTINUOUS,
               lower_bound := .val 0, upper_bound := .val 4, coefficient := 0 }],
    constraints := [{ name := "c0", ctype := .GREATER_EQUAL, rhs := 8,
                      coefficients := [(0, 1), (1, 1)] },
                    { name := "c1", ctype := .LESS_EQUAL, rhs := 17/2,
                      coefficients := [(2, 2), (3, 1)] }] }

/-- Test problem for C3: minimize `x`, `x` integer in `[0,10]`, subject to
`2x ≥ 2 + 2e-7`; the LP repair lands on `x = 1 + 1e-7`, integer feasible
within 1e-6 but not an exact integer. -/
def pC3 : Problem :=
  { name := "pC3", objective_type := .MINIMIZE,
    vars := [{ name := "x", vtype := .INTEGER,
               lower_bound := .val 0, upper_bound := .val 10, coefficient := 1 }],
    constraints := [{ name := "c0", ctype := .GREATER_EQUAL, rhs := 2 + 1/5000000,
                      coefficients := [(0, 2)] }] }

/-- Test problem for C5: `x` fixed to 0 by its bounds, subject to
`x ≥ 0.1`; the repair cannot move `x`, and the final recomputed total
violation is exactly 0.1. -/
def pC5 : Problem :=
  { name := "pC5", objective_type := .MINIMIZE,
    vars := [{ name := "x", vtype := .CONTINUOUS,
               lower_bound := .val 0, upper_bound := .val 0, coefficient := 1 }],
    constraints := [{ name := "c0", ctype := .GREATER_EQUAL, rhs := 1/10,
                      coefficients := [(0, 1)] }] }

/-- Test variable for C4: continuous, bounds `[1,5]`, objective
coefficient exactly 0. -/
def vC4 : Variable :=
  { name := "x", vtype := .CONTINUOUS,
    lower_bound := .val 1, upper_bound := .val 5, coefficient := 0 }

/-- Test problem for C7: a single continuous variable. -/
def pC7 : Problem :=
  { name := "pC7", objective_type := .MINIMIZE,
    vars := [{ name := "x", vtype := .CONTINUOUS,
               lower_bound := .val 0, upper_bound := .val 1, coefficient := 1 }] }

end MIPSolver

namespace MIPSolver

/-- Exact (tolerance-free) satisfaction of one constraint by a point. -/
def exactSatisfied (c : Constraint) (pt : List ℚ) : Bool :=
  let lhs := c.lhsValue pt
  match c.ctype with
  | .LESS_EQUAL => decide (lhs ≤ c.rhs)
  | .GREATER_EQUAL => decide (lhs ≥ c.rhs)
  | .EQUAL => decide (lhs = c.rhs)

/-- An integer-feasible point of a (sub)problem: correct length, inside
every variable's bounds, exactly satisfying every constraint, with every
Integer/Binary variable at an exact integer. -/
def integerFeasiblePoint (p : Problem) (pt : List ℚ) : Bool :=
  decide (pt.length = p.vars.length) &&
  (List.range p.vars.length).all (fun i =>
    let v := p.getVar i
    let x := pt.getD i 0
    EDouble.leQ v.lower_bound x && EDouble.qLe x v.upper_bound &&
    (!(vtIsInt v.vtype) || decide (fracPart x = 0))) &&
  p.constraints.all (fun c => exactSatisfied c pt)

/-- Whether an objective value improves on an incumbent by strictly more
than the pruning tolerance 1e-6, in the problem's optimization sense. -/
def improvesBeyondTol (ot : ObjectiveType) (obj : ℚ) (incumbent : EDouble) : Bool :=
  match ot with
  | .MINIMIZE => EDouble.qLt obj (incumbent.subQ tol6)
  | .MAXIMIZE => EDouble.qGt obj (incumbent.addQ tol6)

/-- A recorded bound-pruning event is unsound, witnessed by the point `pt`:
`pt` is an integer-feasible point of the pruned node's subproblem whose
objective beats the incumbent held at pruning time by more than 1e-6. -/
def unsoundPrune (ot : ObjectiveType) (ev : BBNode × ℚ × EDouble) (pt : List ℚ) : Bool :=
  integerFeasiblePoint ev.1.problem pt &&
  improvesBeyondTol ot (ev.1.problem.calculateObjectiveValue pt) ev.2.2

/-- The witness point for the unsound prune on `pC2`:
`(x, y, d, s) = (0, 8, 3, 0)`, objective 8 against the incumbent 12. -/
def ptC2 : List ℚ := [0, 8, 3, 0]

end MIPSolver

namespace MIPSolver

/-- C4, the spec-side initial assignment, modelled from the spec's words:
fixed value when the bounds agree within tolerance, else for Minimize the
lower bound when `obj_coeff ≥ 0` and otherwise the upper bound (for
Maximize the upper bound when `obj_coeff ≥ 0` and otherwise the lower
bound), with infinite chosen bounds replaced by the sentinel. -/
def initialValueSpecGe (ot : ObjectiveType) (v : Variable) : ℚ :=
  if (match v.lower_bound, v.upper_bound with
      | .val a, .val b => decide (|a - b| < tol9)
      | _, _ => false) then
    sentinel v.lower_bound
  else
    sentinel (match ot with
      | .MINIMIZE => if v.coefficient ≥ 0 then v.lower_bound else v.upper_bound
      | .MAXIMIZE => if v.coefficient ≥ 0 then v.upper_bound else v.lower_bound)

/-- Error values of the spec's §7 taxonomy (modelled from the spec; the
sources define no error signaling for the model setters). -/
inductive MIPError where
  | InvalidIndex
  | InvalidValue
deriving DecidableEq, Repr

/-- Modelled from the spec: `setObjectiveCoefficient` as the spec's §4.1
failure contract demands it — out-of-range indices signal `InvalidIndex`
to the caller. -/
def setObjectiveCoefficientSpec (p : Problem) (var_index : ℤ) (coeff : ℚ) :
    Except MIPError Problem :=
  if 0 ≤ var_index ∧ var_index < (p.vars.length : ℤ) then
    .ok (p.setObjectiveCoefficient var_index coeff)
  else
    .error .InvalidIndex

/-- The amended spec-side initial assignment: as `initialValueSpecGe` but
with the favorable-bound test made strict (`obj_coeff > 0`), matching the
source's `if (coeff > 0)`. -/
def initialValueSpecStrict (ot : ObjectiveType) (v : Variable) : ℚ :=
  if (match v.lower_bound, v.upper_bound with
      | .val a, .val b => decide (|a - b| < tol9)
      | _, _ => false) then
    sentinel v.lower_bound
  else
    sentinel (match ot with
      | .MINIMIZE => if v.coefficient > 0 then v.lower_bound else v.upper_bound
      | .MAXIMIZE => if v.coefficient > 0 then v.upper_bound else v.lower_bound)

/-- Bool form of the branching-variable maximality property: every
integer-kind variable's fractional part is at most that of `j`, and every
integer-kind variable with smaller index has a strictly smaller fractional
part. -/
def maxFracAt (p : Problem) (solution : List ℚ) (j : Nat) : Bool :=
  ((List.range p.vars.length).all (fun i =>
      !(vtIsInt (p.getVar i).vtype) ||
      decide (fracPart (solution.getD i 0) ≤ fracPart (solution.getD j 0)))) &&
  ((List.range j).all (fun i =>
      !(vtIsInt (p.getVar i).vtype) ||
      decide (fracPart (solution.getD i 0) < fracPart (solution.getD j 0))))

/-- C1, counterexample: on `pC1` the solver returns status `OPTIMAL`, yet
the returned values `[0]` fail `isValidSolution` (the constraint
`x ≥ 0.05` is violated by 0.05, far beyond the 1e-9 feasibility
tolerance) — the heuristic LP accepted the violated point because its total
violation is below 0.1. -/
theorem C1_counterexample :
    (solve pC1 10).status = SolutionStatus.OPTIMAL ∧
    pC1.isValidSolution (solve pC1 10).values = false := by
  constructor <;> decide!

/-- C2, the code bug evaluated at the failing input: running the solver on
`pC2` records a bound-pruning event whose node admits the integer-feasible
point `(0, 8, 3, 0)` with objective 8, strictly better than the incumbent
12 held at pruning time by far more than the 1e-6 pruning tolerance; the
point is feasible for the original problem as well, yet the solver reports
`OPTIMAL` with objective 12. -/
theorem C2_violation :
    (bbRun pC2 10).pruneEvents.any
      (fun ev => unsoundPrune pC2.objective_type ev ptC2) = true ∧
    (solve pC2 10).status = SolutionStatus.OPTIMAL ∧
    (solve pC2 10).objective_value = EDouble.val 12 ∧
    pC2.isValidSolution ptC2 = true ∧
    integerFeasiblePoint pC2 ptC2 = true ∧
    pC2.calculateObjectiveValue ptC2 = 8 := by
  refine ⟨?_, ?_, ?_, ?_, ?_, ?_⟩ <;> decide!

/-- C3, counterexample: on `pC3` the LP value `x = 1 + 1e-7` passes the
integrality test, and the solver stores it and its objective unrounded:
the returned value is not an exact integer and the returned objective is
the unrounded `1 + 1e-7`, not the recomputed value 1 the claim requires. -/
theorem C3_counterexample :
    (solve pC3 10).status = SolutionStatus.OPTIMAL ∧
    (solve pC3 10).values = [1 + 1/10000000] ∧
    (solve pC3 10).objective_value = EDouble.val (1 + 1/10000000) ∧
    ¬ fracPart ((solve pC3 10).values.getD 0 0) = 0 ∧
    ¬ (solve pC3 10).objective_value = EDouble.val 1 := by
  refine ⟨?_, ?_, ?_, ?_, ?_⟩ <;> decide!

/-- C4, counterexample: for a Minimize objective and the variable `vC4`
with objective coefficient exactly 0 and bounds `[1,5]`, the code assigns
the upper bound 5 (its test is `coeff > 0`), while the claim's rule
(`coeff ≥ 0` picks the lower bound) yields 1. -/
theorem C4_counterexample :
    initialValue ObjectiveType.MINIMIZE vC4 = 5 ∧
    initialValueSpecGe ObjectiveType.MINIMIZE vC4 = 1 ∧
    ¬ initialValue ObjectiveType.MINIMIZE vC4
        = initialValueSpecGe ObjectiveType.MINIMIZE vC4 := by
  refine ⟨?_, ?_, ?_⟩ <;> decide!

/-- C5, counterexample: on `pC5` the repair loop exhausts its 20 passes,
the recomputed total absolute violation is exactly 0.1 — which the claim's
`≤ 0.1` acceptance would accept — yet the solver reports Infeasible,
because the source's test is the strict `total_violation < 0.1`. -/
theorem C5_counterexample :
    (solveLPRelaxation pC5).is_infeasible = true ∧
    totalViolation pC5 (solveLPRelaxation pC5).solution = 1/10 := by
  constructor <;> decide!

/-- C7, counterexample: calling the code's `setObjectiveCoefficient` on the
one-variable problem `pC7` with the out-of-range index 5 signals nothing —
it returns the problem unchanged — where the claim requires an
`InvalidIndex` error to reach the caller. -/
theorem C7_counterexample :
    Problem.setObjectiveCoefficient pC7 5 3 = pC7 ∧
    setObjectiveCoefficientSpec pC7 5 3 = Except.error MIPError.InvalidIndex := by
  exact ⟨by decide!, by with_unfolding_all rfl⟩

end MIPSolver

namespace MIPSolver

theorem leE_refl (e : EDouble) : EDouble.leE e e = true := by
  cases e <;> simp [EDouble.leE]

theorem leE_maxE_left (a b : EDouble) : EDouble.leE a (EDouble.maxE a b) = true := by
  cases a <;> cases b <;> simp [EDouble.leE, EDouble.maxE, le_max_left]

theorem minE_leE_left (a b : EDouble) : EDouble.leE (EDouble.minE a b) a = true := by
  cases a <;> cases b <;> simp [EDouble.leE, EDouble.minE, min_le_left]

theorem getVar_set_bounds (p : Problem) (idx : Nat) (nv : Variable) (i : Nat) :
    ({ p with vars := p.vars.set idx nv } : Problem).getVar i
      = if idx = i ∧ idx < p.vars.length then nv else p.getVar i := by
  unfold Problem.getVar
  simp only [List.getD_eq_getElem?_getD, List.getElem?_set]
  by_cases h1 : idx = i
  · subst h1
    by_cases h2 : idx < p.vars.length
    · simp [h2]
    · simp [h2, List.getElem?_eq_none (by omega : p.vars.length ≤ idx)]
  · simp [h1]

theorem addBound_nested (p : Problem) (idx : Nat) (l u : EDouble) (i : Nat) :
    EDouble.leE (p.getVar i).lower_bound ((addBound p idx l u).getVar i).lower_bound = true ∧
    EDouble.leE ((addBound p idx l u).getVar i).upper_bound (p.getVar i).upper_bound = true := by
  unfold addBound
  split
  · rw [getVar_set_bounds]
    split
    · rename_i h
      obtain ⟨h1, _⟩ := h
      subst h1
      exact ⟨leE_maxE_left _ _, minE_leE_left _ _⟩
    · exact ⟨leE_refl _, leE_refl _⟩
  · exact ⟨leE_refl _, leE_refl _⟩

/-- C9 (confirmed): every child node created at a branching step has, for
every variable index, a bound interval nested inside its parent node's:
the child's lower bound is `≥` the parent's and the child's upper bound is
`≤` the parent's, because `addBound` intersects the new bounds with the
current ones. -/
theorem C9_child_bounds_nested (node : BBNode) (j : Nat) (x lpObj : ℚ) (i : Nat) :
    (EDouble.leE (node.problem.getVar i).lower_bound
        (((branchChildren node j x lpObj).1.problem.getVar i).lower_bound) = true ∧
     EDouble.leE (((branchChildren node j x lpObj).1.problem.getVar i).upper_bound)
        ((node.problem.getVar i).upper_bound) = true) ∧
    (EDouble.leE (node.problem.getVar i).lower_bound
        (((branchChildren node j x lpObj).2.problem.getVar i).lower_bound) = true ∧
     EDouble.leE (((branchChildren node j x lpObj).2.problem.getVar i).upper_bound)
        ((node.problem.getVar i).upper_bound) = true) :=
  ⟨addBound_nested node.problem j .negInf (.val (⌊x⌋ : ℤ)) i,
   addBound_nested node.problem j (.val (⌈x⌉ : ℤ)) .posInf i⟩

/-- C7 (amended): calling `setObjectiveCoefficient` with an out-of-range
variable index signals nothing — the Problem is returned unchanged. -/
theorem C7_amended (p : Problem) (i : ℤ) (c : ℚ)
    (h : i < 0 ∨ (p.vars.length : ℤ) ≤ i) :
    Problem.setObjectiveCoefficient p i c = p := by
  unfold Problem.setObjectiveCoefficient
  rw [if_neg]
  rintro ⟨h1, h2⟩
  rcases h with h | h <;> omega

/-- C7, witness for the amended theorem at the concrete out-of-range call
`setObjectiveCoefficient pC7 5 3`. -/
theorem C7_amended_witness :
    ((5 : ℤ) < 0 ∨ ((pC7.vars.length : ℤ) ≤ 5)) ∧
    Problem.setObjectiveCoefficient pC7 5 3 = pC7 :=
  ⟨Or.inr (by decide!), C7_amended pC7 5 3 (Or.inr (by decide!))⟩

end MIPSolver

namespace MIPSolver

theorem solveLP_unbounded (p : Problem) : (solveLPRelaxation p).is_unbounded = false := by
  unfold solveLPRelaxation solveLPWithBounds
  split
  · rfl
  · dsimp only
    split <;> rfl

theorem bbStep_input (st : BBState) : (bbStep st).input = st.input := by
  cases hst : st.stack with
  | nil => simp [bbStep, hst]
  | cons node rest =>
    simp only [bbStep, hst]
    split
    · rfl
    · split
      · rfl
      · split
        · rfl
        · split
          · split <;> rfl
          · split <;> rfl

theorem bbStep_earlyReturn (st : BBState) : (bbStep st).earlyReturn = st.earlyReturn := by
  cases hst : st.stack with
  | nil => simp [bbStep, hst]
  | cons node rest =>
    simp only [bbStep, hst]
    split
    · rfl
    · split
      · rename_i hcond
        rw [solveLP_unbounded] at hcond
        simp at hcond
      · split
        · rfl
        · split
          · split <;> rfl
          · split <;> rfl

theorem bbLoop_input (fuel : Nat) (st : BBState) : (bbLoop fuel st).input = st.input := by
  induction fuel generalizing st with
  | zero => rfl
  | succ f ih =>
    unfold bbLoop
    split
    · rfl
    · rw [ih, bbStep_input]

theorem bbLoop_earlyReturn (fuel : Nat) (st : BBState) :
    (bbLoop fuel st).earlyReturn = st.earlyReturn := by
  induction fuel generalizing st with
  | zero => rfl
  | succ f ih =>
    unfold bbLoop
    split
    · rfl
    · rw [ih, bbStep_earlyReturn]

/-- C8 (confirmed): the branch-and-bound driver leaves the input Problem
unchanged — the problem threaded through the whole solver run (the
driver's `const Problem&`) comes out equal to the one passed in; every
bound tightening is applied by `addBound` only to the value-copied
problems stored in child nodes. -/
theorem C8_input_unchanged (p : Problem) (limit : Nat) :
    (bbRun p limit).input = p := by
  unfold bbRun
  rw [bbLoop_input]
  rfl

/-- C10 (confirmed): the LP relaxation solver never reports unboundedness
(the flag is initialized false and never set on any path), and consequently
`solve` never returns a Solution with status `UNBOUNDED`, for every input
problem and iteration limit. -/
theorem C10_never_unbounded (p : Problem) :
    (solveLPRelaxation p).is_unbounded = false ∧
    ∀ limit : Nat, (solve p limit).status ≠ SolutionStatus.UNBOUNDED := by
  refine ⟨solveLP_unbounded p, ?_⟩
  intro limit
  unfold solve finalizeSolution
  have h : (bbRun p limit).earlyReturn = none := by
    unfold bbRun
    rw [bbLoop_earlyReturn]
    rfl
  rw [h]
  dsimp only
  split
  · split <;> simp
  · simp

end MIPSolver

namespace MIPSolver

set_option linter.unreachableTactic false in
set_option linter.unusedTactic false in
/-- C4 (amended): the initial assignment of the LP relaxation solver
agrees, for every objective sense and every variable, with the spec's rule
amended to use the strict comparison `obj_coeff > 0`: fixed variables get
their fixed value, every other variable the strictly-favorable bound, and
infinite chosen bounds are replaced by the sentinel (`+∞ ↦ 100`,
`-∞ ↦ 0`). -/
theorem C4_amended (ot : ObjectiveType) (v : Variable) :
    initialValue ot v = initialValueSpecStrict ot v := by
  unfold initialValue initialValueSpecStrict chooseBound
  cases hl : v.lower_bound <;> cases hu : v.upper_bound <;> cases ot <;>
    simp [sentinel] <;> split <;> simp [sentinel]

/-- C5 (amended): when the infeasibility screen passes and the repair loop
runs its full 20 passes without an early exit, the LP relaxation solver
accepts (does not report Infeasible) exactly when the recomputed total
absolute violation of the final solution is strictly less than 0.1, and it
reports that final repaired solution. -/
theorem C5_amended (p : Problem) (s : List ℚ)
    (hscreen : p.vars.any
        (fun v => EDouble.gtE v.lower_bound (v.upper_bound.addQ tol9)) = false)
    (hloop : repairLoop p 20 0 (p.vars.map (initialValue p.objective_type))
        = RepairOutcome.exhausted s) :
    ((solveLPRelaxation p).is_infeasible = false ↔ totalViolation p s < 1/10) ∧
    (solveLPRelaxation p).solution = s := by
  unfold solveLPRelaxation solveLPWithBounds satisfyConstraints
  rw [hscreen]
  rw [if_neg (by simp)]
  dsimp only
  rw [hloop]
  dsimp only
  split
  · rename_i hc
    exact ⟨iff_of_true rfl (of_decide_eq_true hc), rfl⟩
  · rename_i hc
    have hge : ¬ totalViolation p s < 1/10 := fun hlt => hc (decide_eq_true hlt)
    exact ⟨iff_of_false (by simp) hge, rfl⟩

/-- C5, witness for the amended theorem: on `pC5` the screen passes, the
loop exhausts with final solution `[0]`, and acceptance coincides with the
(false) comparison `0.1 < 0.1`. -/
theorem C5_amended_witness :
    (pC5.vars.any
        (fun v => EDouble.gtE v.lower_bound (v.upper_bound.addQ tol9)) = false) ∧
    (repairLoop pC5 20 0 (pC5.vars.map (initialValue pC5.objective_type))
        = RepairOutcome.exhausted [0]) ∧
    (((solveLPRelaxation pC5).is_infeasible = false ↔ totalViolation pC5 [0] < 1/10) ∧
     (solveLPRelaxation pC5).solution = [0]) :=
  ⟨by decide!, by decide!, C5_amended pC5 [0] (by decide!) (by decide!)⟩

end MIPSolver

namespace MIPSolver

theorem bbStep_incumbent_integral (st : BBState)
    (h : ∀ q : ℚ, st.best_objective = EDouble.val q →
        isIntegerFeasible st.best_solution st.input = true) :
    ∀ q : ℚ, (bbStep st).best_objective = EDouble.val q →
        isIntegerFeasible (bbStep st).best_solution (bbStep st).input = true := by
  cases hst : st.stack with
  | nil => simpa [bbStep, hst] using h
  | cons node rest =>
    simp only [bbStep, hst]
    split
    · exact h
    · split
      · exact h
      · split
        · exact h
        · split
          · split
            · rename_i hint hbetter
              intro q hq
              exact hint
            · exact h
          · split
            · exact h
            · exact h

theorem bbLoop_incumbent_integral (fuel : Nat) (st : BBState)
    (h : ∀ q : ℚ, st.best_objective = EDouble.val q →
        isIntegerFeasible st.best_solution st.input = true) :
    ∀ q : ℚ, (bbLoop fuel st).best_objective = EDouble.val q →
        isIntegerFeasible (bbLoop fuel st).best_solution (bbLoop fuel st).input = true := by
  induction fuel generalizing st with
  | zero => exact h
  | succ f ih =>
    unfold bbLoop
    split
    · exact h
    · exact ih (bbStep st) (bbStep_incumbent_integral st h)

theorem isIntegerFeasible_map_range (p : Problem) (bs : List ℚ)
    (h : isIntegerFeasible bs p = true) :
    isIntegerFeasible ((List.range p.vars.length).map (fun i => bs.getD i 0)) p = true := by
  unfold isIntegerFeasible at h ⊢
  rw [List.all_eq_true] at h ⊢
  intro i hi
  have hi2 := List.mem_range.mp hi
  have hgd : ((List.range p.vars.length).map (fun k => bs.getD k 0)).getD i 0
      = bs.getD i 0 := by
    rw [List.getD_eq_getElem?_getD, List.getElem?_map, List.getElem?_range hi2]
    rfl
  have h2 := h i hi
  simp only at h2 ⊢
  rw [hgd]
  exact h2

/-- C1 (amended): whenever the solver returns a Solution with status
`OPTIMAL`, every Integer/Binary variable of the input problem takes, in the
returned values, a value within the integrality tolerance 1e-6 of an exact
integer (the feasibility half of the original claim fails, see the
counterexample: `isValidSolution` need not hold). -/
theorem C1_amended (p : Problem) (limit : Nat)
    (h : (solve p limit).status = SolutionStatus.OPTIMAL) :
    isIntegerFeasible (solve p limit).values p = true := by
  have hER : (bbRun p limit).earlyReturn = none := by
    unfold bbRun
    rw [bbLoop_earlyReturn]
    rfl
  have hInput : (bbRun p limit).input = p := by
    unfold bbRun
    rw [bbLoop_input]
    rfl
  have base : ∀ q : ℚ, (initState p).best_objective = EDouble.val q →
      isIntegerFeasible (initState p).best_solution (initState p).input = true := by
    intro q hq
    unfold initState at hq
    dsimp only at hq
    cases hp : p.objective_type <;> rw [hp] at hq <;> cases hq
  have hInv : ∀ q : ℚ, (bbRun p limit).best_objective = EDouble.val q →
      isIntegerFeasible (bbRun p limit).best_solution p = true := by
    intro q hq
    have := bbLoop_incumbent_integral limit (initState p) base q hq
    rw [show (bbLoop limit (initState p)).input = (bbRun p limit).input from rfl,
        hInput] at this
    exact this
  unfold solve finalizeSolution at h ⊢
  rw [hER] at h ⊢
  dsimp only at h ⊢
  revert h
  cases hb : (bbRun p limit).best_objective with
  | negInf => intro h; simp at h
  | posInf => intro h; simp at h
  | val q =>
    intro h
    dsimp only at h ⊢
    by_cases hlim : (bbRun p limit).nodes_processed ≥ limit
    · rw [if_pos hlim] at h
      simp at h
    · rw [if_neg hlim]
      dsimp only
      exact isIntegerFeasible_map_range p _ (hInv q hb)

/-- C1, witness for the amended theorem at the concrete run on `pC1`
(whose Optimal values violate a constraint but are integral). -/
theorem C1_amended_witness :
    (solve pC1 10).status = SolutionStatus.OPTIMAL ∧
    isIntegerFeasible (solve pC1 10).values pC1 = true :=
  ⟨by decide!, C1_amended pC1 10 (by decide!)⟩

end MIPSolver

namespace MIPSolver

theorem fracPart_nonneg (q : ℚ) : 0 ≤ fracPart q := abs_nonneg _

theorem tol6_pos : (0 : ℚ) < tol6 := by norm_num [tol6]

theorem fbv_invariant (solution : List ℚ) (p : Problem) (n : Nat) :
    (((List.range n).foldl (fbvStep solution p) (none, 0)) = (none, 0) ∧
      ∀ i, i < n → vtIsInt (p.getVar i).vtype = true →
        fracPart (solution.getD i 0) ≤ tol6) ∨
    (∃ j, j < n ∧ vtIsInt (p.getVar j).vtype = true ∧
      ((List.range n).foldl (fbvStep solution p) (none, 0))
        = (some j, fracPart (solution.getD j 0)) ∧
      fracPart (solution.getD j 0) > tol6 ∧
      (∀ i, i < n → vtIsInt (p.getVar i).vtype = true →
        fracPart (solution.getD i 0) ≤ fracPart (solution.getD j 0)) ∧
      (∀ i, i < j → vtIsInt (p.getVar i).vtype = true →
        fracPart (solution.getD i 0) < fracPart (solution.getD j 0))) := by
  induction n with
  | zero =>
    left
    exact ⟨rfl, fun i hi => absurd hi (by omega)⟩
  | succ n ih =>
    rw [List.range_succ, List.foldl_append, List.foldl_cons, List.foldl_nil]
    rcases ih with ⟨hacc, hall⟩ | ⟨j, hj, hint, hacc, htol, hmax, hstrict⟩
    · rw [hacc]
      unfold fbvStep
      by_cases hv : vtIsInt (p.getVar n).vtype
      · rw [if_pos hv]
        dsimp only
        by_cases hcond : fracPart (solution.getD n 0) > tol6 ∧ fracPart (solution.getD n 0) > 0
        · rw [if_pos hcond]
          right
          refine ⟨n, by omega, hv, rfl, hcond.1, ?_, ?_⟩
          · intro i hi hvi
            rcases (by omega : i < n ∨ i = n) with h | h
            · exact le_of_lt (lt_of_le_of_lt (hall i h hvi) hcond.1)
            · subst h; exact le_refl _
          · intro i hi hvi
            exact lt_of_le_of_lt (hall i hi hvi) hcond.1
        · rw [if_neg hcond]
          left
          refine ⟨rfl, ?_⟩
          intro i hi hvi
          rcases (by omega : i < n ∨ i = n) with h | h
          · exact hall i h hvi
          · subst h
            rcases not_and_or.mp hcond with h2 | h2
            · exact le_of_not_lt h2
            · have h0 : fracPart (solution.getD i 0) = 0 :=
                le_antisymm (le_of_not_lt h2) (fracPart_nonneg _)
              rw [h0]
              exact le_of_lt tol6_pos
      · rw [if_neg hv]
        left
        refine ⟨rfl, ?_⟩
        intro i hi hvi
        rcases (by omega : i < n ∨ i = n) with h | h
        · exact hall i h hvi
        · subst h; exact absurd hvi (by simp [hv])
    · rw [hacc]
      unfold fbvStep
      by_cases hv : vtIsInt (p.getVar n).vtype
      · rw [if_pos hv]
        dsimp only
        by_cases hcond : fracPart (solution.getD n 0) > tol6 ∧
            fracPart (solution.getD n 0) > fracPart (solution.getD j 0)
        · rw [if_pos hcond]
          right
          refine ⟨n, by omega, hv, rfl, hcond.1, ?_, ?_⟩
          · intro i hi hvi
            rcases (by omega : i < n ∨ i = n) with h | h
            · exact le_of_lt (lt_of_le_of_lt (hmax i h hvi) hcond.2)
            · subst h; exact le_refl _
          · intro i hi hvi
            exact lt_of_le_of_lt (hmax i hi hvi) hcond.2
        · rw [if_neg hcond]
          right
          refine ⟨j, by omega, hint, rfl, htol, ?_, hstrict⟩
          intro i hi hvi
          rcases (by omega : i < n ∨ i = n) with h | h
          · exact hmax i h hvi
          · subst h
            rcases not_and_or.mp hcond with h2 | h2
            · exact le_trans (le_of_not_lt h2) (le_of_lt htol)
            · exact le_of_not_lt h2
      · rw [if_neg hv]
        right
        refine ⟨j, by omega, hint, rfl, htol, ?_, hstrict⟩
        intro i hi hvi
        rcases (by omega : i < n ∨ i = n) with h | h
        · exact hmax i h hvi
        · subst h; exact absurd hvi (by simp [hv])

theorem fbv_some (solution : List ℚ) (p : Problem) (j : Nat)
    (h : findBranchingVariable solution p = some j) :
    j < p.vars.length ∧ vtIsInt (p.getVar j).vtype = true ∧
    fracPart (solution.getD j 0) > tol6 ∧
    maxFracAt p solution j = true := by
  unfold findBranchingVariable at h
  rcases fbv_invariant solution p p.vars.length with ⟨hacc, _⟩ |
      ⟨k, hk, hint, hacc, htol, hmax, hstrict⟩
  · rw [hacc] at h
    cases h
  · rw [hacc] at h
    dsimp only at h
    cases h
    refine ⟨hk, hint, htol, ?_⟩
    unfold maxFracAt
    rw [Bool.and_eq_true, List.all_eq_true, List.all_eq_true]
    constructor
    · intro i hi
      have hi2 := List.mem_range.mp hi
      by_cases hvi : vtIsInt (p.getVar i).vtype
      · simp only [hvi, Bool.not_true, Bool.false_or, decide_eq_true_eq]
        exact hmax i hi2 hvi
      · simp [hvi]
    · intro i hi
      have hi2 := List.mem_range.mp hi
      by_cases hvi : vtIsInt (p.getVar i).vtype
      · simp only [hvi, Bool.not_true, Bool.false_or, decide_eq_true_eq]
        exact hstrict i hi2 hvi
      · simp [hvi]

end MIPSolver

namespace MIPSolver

/-- C3 (amended): when a popped node's LP relaxation is feasible, survives
the bound prune, and its solution passes the integrality test, the driver
prunes the node (pushes no children) and updates the incumbent exactly when
the LP objective is strictly better than the incumbent beyond the 1e-6
tolerance — storing the LP values and LP objective unchanged (no rounding
to integers and no recomputation of the objective takes place). -/
theorem C3_amended (st : BBState) (node : BBNode) (rest : List BBNode)
    (hstack : st.stack = node :: rest)
    (h1 : (solveLPRelaxation node.problem).is_infeasible = false)
    (h2 : shouldPrune (solveLPRelaxation node.problem).objective_value
        st.best_objective st.input.objective_type = false)
    (h3 : isIntegerFeasible (solveLPRelaxation node.problem).solution st.input = true) :
    (bbStep st).stack = rest ∧
    (bbStep st).best_objective =
      (if isBetterSolution (solveLPRelaxation node.problem).objective_value
          st.best_objective st.input.objective_type
       then EDouble.val (solveLPRelaxation node.problem).objective_value
       else st.best_objective) ∧
    (bbStep st).best_solution =
      (if isBetterSolution (solveLPRelaxation node.problem).objective_value
          st.best_objective st.input.objective_type
       then (solveLPRelaxation node.problem).solution
       else st.best_solution) := by
  simp only [bbStep, hstack]
  rw [h1, solveLP_unbounded, h2, h3]
  simp only [Bool.false_and, Bool.false_eq_true, if_false, if_true]
  split <;> exact ⟨rfl, rfl, rfl⟩

/-- C3, witness for the amended theorem: processing the root node of `pC3`
(whose LP value `1 + 1e-7` is integer feasible within tolerance) empties
the stack and installs the unrounded LP solution as incumbent. -/
theorem C3_amended_witness :
    (bbStep (initState pC3)).stack = [] ∧
    (bbStep (initState pC3)).best_objective
        = EDouble.val (solveLPRelaxation pC3).objective_value ∧
    (bbStep (initState pC3)).best_solution = (solveLPRelaxation pC3).solution := by
  have h := C3_amended (initState pC3)
    { problem := pC3, bound := EDouble.negInf, depth := 0 } []
    (by rfl) (by decide!) (by decide!) (by decide!)
  refine ⟨h.1, ?_, ?_⟩
  · rw [h.2.1]
    decide!
  · rw [h.2.2]
    decide!

/-- C6 (confirmed): at a branching step, the selected variable `j` is an
Integer/Binary variable whose fractional part exceeds the 1e-6 tolerance
and is maximal among all integer variables, with ties broken in favor of
the smaller index (every smaller-index integer variable has a strictly
smaller fractional part); the driver then pushes exactly the two children
onto the LIFO stack with the Down child (upper bound tightened to `⌊x⌋`
via `addBound`) on top of the Up child (lower bound tightened to `⌈x⌉`),
so the Down child is explored first. -/
theorem C6_branching (st : BBState) (node : BBNode) (rest : List BBNode) (j : Nat)
    (hstack : st.stack = node :: rest)
    (h1 : (solveLPRelaxation node.problem).is_infeasible = false)
    (h2 : shouldPrune (solveLPRelaxation node.problem).objective_value
        st.best_objective st.input.objective_type = false)
    (h3 : isIntegerFeasible (solveLPRelaxation node.problem).solution st.input = false)
    (h4 : findBranchingVariable (solveLPRelaxation node.problem).solution st.input
        = some j) :
    vtIsInt (st.input.getVar j).vtype = true ∧
    fracPart ((solveLPRelaxation node.problem).solution.getD j 0) > tol6 ∧
    maxFracAt st.input (solveLPRelaxation node.problem).solution j = true ∧
    (bbStep st).stack =
      (branchChildren node j ((solveLPRelaxation node.problem).solution.getD j 0)
        (solveLPRelaxation node.problem).objective_value).1 ::
      (branchChildren node j ((solveLPRelaxation node.problem).solution.getD j 0)
        (solveLPRelaxation node.problem).objective_value).2 :: rest ∧
    (branchChildren node j ((solveLPRelaxation node.problem).solution.getD j 0)
        (solveLPRelaxation node.problem).objective_value).1.problem
      = addBound node.problem j EDouble.negInf
          (EDouble.val ((⌊(solveLPRelaxation node.problem).solution.getD j 0⌋ : ℤ) : ℚ)) ∧
    (branchChildren node j ((solveLPRelaxation node.problem).solution.getD j 0)
        (solveLPRelaxation node.problem).objective_value).2.problem
      = addBound node.problem j
          (EDouble.val ((⌈(solveLPRelaxation node.problem).solution.getD j 0⌉ : ℤ) : ℚ))
          EDouble.posInf := by
  have hsel := fbv_some (solveLPRelaxation node.problem).solution st.input j h4
  refine ⟨hsel.2.1, hsel.2.2.1, hsel.2.2.2, ?_, rfl, rfl⟩
  simp only [bbStep, hstack]
  rw [h1, solveLP_unbounded, h3, h2, h4]
  simp only [Bool.false_and, Bool.false_eq_true, if_false]

/-- C6, witness: processing the root node of `pC1` branches on variable 0
(LP value 0.05) and pushes the Down child on top of the Up child. -/
theorem C6_branching_witness :
    vtIsInt ((initState pC1).input.getVar 0).vtype = true ∧
    fracPart ((solveLPRelaxation pC1).solution.getD 0 0) > tol6 ∧
    maxFracAt (initState pC1).input (solveLPRelaxation pC1).solution 0 = true ∧
    (bbStep (initState pC1)).stack =
      (branchChildren { problem := pC1, bound := EDouble.negInf, depth := 0 } 0
        ((solveLPRelaxation pC1).solution.getD 0 0)
        (solveLPRelaxation pC1).objective_value).1 ::
      (branchChildren { problem := pC1, bound := EDouble.negInf, depth := 0 } 0
        ((solveLPRelaxation pC1).solution.getD 0 0)
        (solveLPRelaxation pC1).objective_value).2 :: [] := by
  have h := C6_branching (initState pC1)
    { problem := pC1, bound := EDouble.negInf, depth := 0 } [] 0
    (by rfl) (by decide!) (by decide!) (by decide!) (by decide!)
  exact ⟨h.1, h.2.1, h.2.2.1, h.2.2.2.1⟩

end MIPSolver

namespace MIPSolver

/-- C10, witness: the concrete problem `pC1` has an unbounded-flag-free LP
result and its solve does not return `UNBOUNDED`. -/
theorem C10_witness :
    (solveLPRelaxation pC1).is_unbounded = false ∧
    ((solve pC1 10).status = SolutionStatus.UNBOUNDED → False) :=
  ⟨(C10_never_unbounded pC1).1, fun h => (C10_never_unbounded pC1).2 10 h⟩

end MIPSolver
